import Mathlib

/-!
Shallow embedding of the token-session core of `rest_auth/views.py`
(django-rest-auth).

The source file under verification is `src/rest_auth/views.py`.  Its `Login`
view validates a login serializer, then performs `Token.objects.get_or_create`
keyed by the resolved user and, when the setting `REST_SESSION_LOGIN`
(default `True`) is set, calls the framework session `login`.  Its `Logout`
view deletes the requesting user's token inside a bare `try/except: pass`,
then unconditionally calls the framework session `logout` and returns a 200
success response.  `PasswordReset` validates a serializer and returns a fixed
success message.

External collaborators that are not part of `src/` (the login/password-reset
serializers of this repository, the framework token store's `get_or_create`,
and token resolution) are modelled from the specification's contracts, each
marked `Modelled from the spec:` in its doc comment.  The store state is
explicit; ghost fields (`minted`, `log`) record the creation history of token
values and the calls made to the session/email side channels, so that
uniqueness and side-effect claims can be stated.
-/

namespace RestAuth

/-- A user identity handle: the unique identifier of an account. -/
abbrev UserId := String

/-- A session token row of the token store: an opaque `value` owned by
exactly one `owner` identity, stamped with its creation instant. -/
structure SessionToken where
  value : String
  owner : UserId
  createdAt : Nat
  deriving DecidableEq, Repr

/-- Modelled from the spec: the token store's opaque random value generator
(DRF `Token.generate_key`, not in `src/`).  The spec requires values to be
"unique across all tokens" and "never reused after deletion"; freshness is
modelled by drawing the value injectively from a mint counter. -/
def freshValue (n : Nat) : String :=
  String.mk (List.replicate (n + 1) 'k')

/-- Ghost record of a call to an external side channel: the session
side-channel's establish/terminate operations and the password-reset email
dispatch. -/
inductive Event where
  | establish (u : UserId)
  | terminate
  | resetEmail (e : String)
  deriving DecidableEq, Repr

/-- The state of the token store and its side channels.  `tokens` is the
token table; `counter` and `minted` are ghost history of value generation
(every value ever handed out, most recent first); `sessionUser` is the
cookie-session side channel's registered user; `log` records side-channel
calls, most recent first. -/
structure St where
  tokens : List SessionToken
  counter : Nat
  minted : List String
  sessionUser : Option UserId
  log : List Event
  deriving Repr

/-- The empty initial state: no tokens, nothing minted, no session. -/
def init : St :=
  { tokens := [], counter := 0, minted := [], sessionUser := none, log := [] }

/-- The Django settings relevant to the source: `REST_SESSION_LOGIN`, read
with `getattr(settings, 'REST_SESSION_LOGIN', True)`, so `none` models the
setting being absent. -/
structure Config where
  restSessionLogin : Option Bool

/-- Typed authentication errors of the spec's error taxonomy. -/
inductive AuthError where
  | invalidCredentials
  | invalidToken
  deriving DecidableEq, Repr

/-- A field-level validation error: (field name, message). -/
abbrev FieldError := String × String

/-- The framework's "this field is required" error for a missing field. -/
def requiredError (field : String) : FieldError :=
  (field, "This field is required.")

/-- The conflated credential-failure error: wrong username/password and
inactive account produce the same message, to avoid leaking account
existence. -/
def invalidCredsErrors : List FieldError :=
  [("non_field_errors", "Unable to log in with provided credentials.")]

/-- The body of a POST /login request: both fields optional at the HTTP
layer, validated by the serializer. -/
structure LoginInput where
  username : Option String
  password : Option String
  deriving DecidableEq, Repr

/-- Modelled from the spec: `LoginSerializer` (rest_auth/serializers.py, not
in `src/`).  Collects per-field "required" errors wholesale when fields are
missing; otherwise delegates to the external Credential Verifier (`verify`)
and the active flag, returning the resolved identity on success and the
conflated credential error on failure. -/
def validateLogin (verify : String → String → Option UserId)
    (isActive : UserId → Bool) (inp : LoginInput) :
    Except (List FieldError) UserId :=
  match inp.username, inp.password with
  | some u, some p =>
    match verify u p with
    | some uid => if isActive uid then .ok uid else .error invalidCredsErrors
    | none => .error invalidCredsErrors
  | _, _ =>
    .error ((if inp.username.isNone then [requiredError "username"] else []) ++
            (if inp.password.isNone then [requiredError "password"] else []))

/-- Modelled from the spec: the token store's atomic
`get_or_create(identity)` (DRF `Token.objects.get_or_create(user=...)`, not
in `src/`).  Returns the existing token of `u` when there is one (created =
`false`); otherwise mints a token with a fresh value and inserts it
(created = `true`), recording the value in the ghost mint history. -/
def get_or_create (u : UserId) (s : St) : SessionToken × Bool × St :=
  match s.tokens.find? (fun t => t.owner == u) with
  | some t => (t, false, s)
  | none =>
    let t : SessionToken := ⟨freshValue s.counter, u, s.counter⟩
    (t, true,
      { s with tokens := t :: s.tokens,
               counter := s.counter + 1,
               minted := freshValue s.counter :: s.minted })

/-- Response of the Login view: 200 with the token key, or 400 with the
serializer's collected errors. -/
inductive LoginResponse where
  | ok (token : String)
  | badRequest (errors : List FieldError)
  deriving DecidableEq, Repr

/-- Generic response of the other views: 200 with a body message, or 400
with collected errors. -/
inductive HttpResponse where
  | ok (body : String)
  | badRequest (errors : List FieldError)
  deriving DecidableEq, Repr

namespace Login

/-- `Login.login` (views.py:48-53): resolve the user from the validated
serializer, `get_or_create` the token, and, if
`getattr(settings, 'REST_SESSION_LOGIN', True)`, call the framework session
`login` (modelled as setting `sessionUser` and logging the establish call). -/
def login (cfg : Config) (uid : UserId) (s : St) : String × St :=
  let r := get_or_create uid s
  let s1 := r.2.2
  if cfg.restSessionLogin.getD true then
    (r.1.value, { s1 with sessionUser := some uid, log := Event.establish uid :: s1.log })
  else
    (r.1.value, s1)

/-- `Login.post` (views.py:63-68): validate the serializer; on failure
return 400 with the errors and leave the state alone; on success run
`Login.login` and return 200 with the token key. -/
def post (cfg : Config) (verify : String → String → Option UserId)
    (isActive : UserId → Bool) (inp : LoginInput) (s : St) :
    LoginResponse × St :=
  match validateLogin verify isActive inp with
  | .error errs => (.badRequest errs, s)
  | .ok uid =>
    let r := login cfg uid s
    (.ok r.1, r.2)

end Login

/-- `request.user.auth_token.delete()` (views.py:82): deletes the requesting
user's token row; raises (here: returns `.error ()`) when the user has no
token, mirroring the related-object `DoesNotExist` exception. -/
def deleteAuthToken (u : UserId) (s : St) : Except Unit St :=
  if s.tokens.any (fun t => t.owner == u) then
    .ok { s with tokens := s.tokens.filter (fun t => !(t.owner == u)) }
  else
    .error ()

namespace Logout

/-- `Logout.post` (views.py:80-89): try to delete the requesting user's
token, swallowing every exception (`except: pass`) — including a missing
token and any underlying store failure, modelled by the `storeFails` input;
then unconditionally call the framework session `logout` (clear
`sessionUser`, log the terminate call) and return 200 with the fixed
success body. -/
def post (storeFails : Bool) (u : UserId) (s : St) : HttpResponse × St :=
  let s1 :=
    match (if storeFails then Except.error () else deleteAuthToken u s) with
    | .ok s' => s'
    | .error _ => s
  let s2 := { s1 with sessionUser := none, log := Event.terminate :: s1.log }
  (.ok "Successfully logged out.", s2)

end Logout

/-- Modelled from the spec: `resolve(token_value)` (framework
`TokenAuthentication`, not in `src/`).  Exact-match lookup by value;
`InvalidToken` when no token carries the value or the owning identity is
inactive; otherwise the owning identity.  Read-only. -/
def resolve (isActive : UserId → Bool) (v : String) (s : St) :
    Except AuthError UserId :=
  match s.tokens.find? (fun t => t.value == v) with
  | none => .error .invalidToken
  | some t => if isActive t.owner then .ok t.owner else .error .invalidToken

/-- The body of a POST /password/reset request. -/
structure ResetInput where
  email : Option String
  deriving DecidableEq, Repr

/-- Modelled from the spec: `PasswordResetSerializer`
(rest_auth/serializers.py, not in `src/`).  Validates the shape of the
`email` field only (required, well-formed per the framework's email check
`emailOk`); account existence is not consulted by validation. -/
def validateReset (emailOk : String → Bool) (inp : ResetInput) :
    Except (List FieldError) String :=
  match inp.email with
  | none => .error [requiredError "email"]
  | some e =>
    if emailOk e then .ok e else .error [("email", "Enter a valid email address.")]

namespace PasswordReset

/-- `PasswordReset.post` (views.py:120-130): validate the serializer; on
failure return 400 with the errors; on success run the external
password-reset collaborator's `save()` (modelled: dispatch a reset email
only when the submitted address has an account, `accountExists`) and return
200 with the fixed success message regardless. -/
def post (emailOk : String → Bool) (accountExists : String → Bool)
    (inp : ResetInput) (s : St) : HttpResponse × St :=
  match validateReset emailOk inp with
  | .error errs => (.badRequest errs, s)
  | .ok e =>
    let s' := if accountExists e then { s with log := Event.resetEmail e :: s.log } else s
    (.ok "Password reset e-mail has been sent.", s')

end PasswordReset

/-- One step of the system: any view invocation with any inputs. -/
inductive Step : St → St → Prop where
  | login {s : St} (cfg : Config) (verify : String → String → Option UserId)
      (isActive : UserId → Bool) (inp : LoginInput) :
      Step s (Login.post cfg verify isActive inp s).2
  | logout {s : St} (storeFails : Bool) (u : UserId) :
      Step s (Logout.post storeFails u s).2
  | reset {s : St} (emailOk accountExists : String → Bool) (inp : ResetInput) :
      Step s (PasswordReset.post emailOk accountExists inp s).2

/-- States reachable from the empty store by view invocations. -/
inductive Reachable : St → Prop where
  | init : Reachable init
  | step {s s' : St} : Reachable s → Step s s' → Reachable s'

/-- Zero or more steps. -/
inductive Steps : St → St → Prop where
  | refl (s : St) : Steps s s
  | tail {s s' s'' : St} : Steps s s' → Step s' s'' → Steps s s''

/-- Zero or more steps none of which is a logout of `uid`. -/
inductive StepsAvoiding (uid : UserId) : St → St → Prop where
  | refl (s : St) : StepsAvoiding uid s s
  | login {s s' : St} (cfg : Config) (verify : String → String → Option UserId)
      (isActive : UserId → Bool) (inp : LoginInput) :
      StepsAvoiding uid s s' →
      StepsAvoiding uid s (Login.post cfg verify isActive inp s').2
  | logoutOther {s s' : St} (storeFails : Bool) {u : UserId} (hne : u ≠ uid) :
      StepsAvoiding uid s s' →
      StepsAvoiding uid s (Logout.post storeFails u s').2
  | reset {s s' : St} (emailOk accountExists : String → Bool) (inp : ResetInput) :
      StepsAvoiding uid s s' →
      StepsAvoiding uid s (PasswordReset.post emailOk accountExists inp s').2

/-! ### Basic facts about fresh values and token lookup -/

/-- Fresh values are drawn injectively from the mint counter. -/
theorem freshValue_inj {m n : Nat} (h : freshValue m = freshValue n) : m = n := by
  unfold freshValue at h
  injection h with h2
  have h3 := congrArg List.length h2
  simpa using h3

/-- The store invariant maintained by every view: token owners are distinct
(at most one live token per identity), token values are distinct, every live
value is recorded in the mint history, the mint history has no repetition
(no value is ever handed out twice), and every recorded value was generated
at some counter instant below the current one. -/
def Inv (s : St) : Prop :=
  (s.tokens.map SessionToken.owner).Nodup ∧
  (s.tokens.map SessionToken.value).Nodup ∧
  (∀ t ∈ s.tokens, t.value ∈ s.minted) ∧
  s.minted.Nodup ∧
  (∀ v ∈ s.minted, ∃ i, i < s.counter ∧ v = freshValue i)

theorem Inv_init : Inv init := by
  refine ⟨List.nodup_nil, List.nodup_nil, ?_, List.nodup_nil, ?_⟩ <;> simp [init]

/-- The value about to be minted is new: it is not in the mint history. -/
theorem freshValue_counter_not_minted {s : St} (h : Inv s) :
    freshValue s.counter ∉ s.minted := by
  intro hmem
  obtain ⟨i, hi, heq⟩ := h.2.2.2.2 _ hmem
  exact absurd (freshValue_inj heq.symm) (Nat.ne_of_lt hi)

/-- In a token list with pairwise-distinct values, lookup by the value of a
member finds exactly that member. -/
theorem find?_value_of_mem {l : List SessionToken}
    (hnd : (l.map SessionToken.value).Nodup) {t : SessionToken} (ht : t ∈ l) :
    l.find? (fun x => x.value == t.value) = some t := by
  induction l with
  | nil => cases ht
  | cons a l ih =>
    rcases List.mem_cons.mp ht with rfl | hmem
    · exact List.find?_cons_of_pos l (by simp)
    · have hval : a.value ≠ t.value := by
        intro hv
        have : t.value ∈ l.map SessionToken.value := List.mem_map_of_mem _ hmem
        rw [← hv] at this
        exact (List.nodup_cons.mp hnd).1 this
      rw [List.find?_cons_of_neg _ (by simpa using hval)]
      exact ih (List.nodup_cons.mp hnd).2 hmem

/-- In a token list with pairwise-distinct values, two members sharing a
value are the same token. -/
theorem eq_of_value_eq {l : List SessionToken}
    (hnd : (l.map SessionToken.value).Nodup) {t t' : SessionToken}
    (ht : t ∈ l) (ht' : t' ∈ l) (hv : t.value = t'.value) : t = t' :=
  List.inj_on_of_nodup_map hnd ht ht' hv

/-- A token list whose owners are pairwise distinct holds at most one token
of any given owner. -/
theorem filter_owner_length_le_one {l : List SessionToken}
    (hnd : (l.map SessionToken.owner).Nodup) (u : UserId) :
    (l.filter (fun t => t.owner == u)).length ≤ 1 := by
  induction l with
  | nil => simp
  | cons a l ih =>
    have hcons := List.nodup_cons.mp hnd
    by_cases hp : a.owner = u
    · have hnil : l.filter (fun t => t.owner == u) = [] := by
        apply List.filter_eq_nil_iff.mpr
        intro x hx
        simp only [beq_iff_eq]
        intro hxu
        have hmem := List.mem_map_of_mem SessionToken.owner hx
        rw [hxu, ← hp] at hmem
        exact hcons.1 hmem
      simp [List.filter_cons, hp, hnil]
    · simpa [List.filter_cons, hp] using ih hcons.2

/-! ### How each operation transforms the store -/

/-- `get_or_create` leaves the session side channel and log alone. -/
theorem get_or_create_log (u : UserId) (s : St) :
    (get_or_create u s).2.2.log = s.log ∧
    (get_or_create u s).2.2.sessionUser = s.sessionUser := by
  unfold get_or_create
  cases s.tokens.find? (fun t => t.owner == u) <;> exact ⟨rfl, rfl⟩

/-- `get_or_create` preserves the store invariant. -/
theorem Inv_get_or_create {s : St} (h : Inv s) (u : UserId) :
    Inv (get_or_create u s).2.2 := by
  unfold get_or_create
  cases hf : s.tokens.find? (fun t => t.owner == u) with
  | some t => exact h
  | none =>
    obtain ⟨ho, hv, hm, hnd, hidx⟩ := h
    have hfresh := freshValue_counter_not_minted ⟨ho, hv, hm, hnd, hidx⟩
    refine ⟨?_, ?_, ?_, ?_, ?_⟩
    · refine List.nodup_cons.mpr ⟨?_, ho⟩
      intro hmem
      obtain ⟨x, hx, hxe⟩ := List.mem_map.mp hmem
      have := (List.find?_eq_none.mp hf) x hx
      simp only [beq_iff_eq] at this
      exact this hxe
    · refine List.nodup_cons.mpr ⟨?_, hv⟩
      intro hmem
      obtain ⟨x, hx, hxe⟩ := List.mem_map.mp hmem
      have hx' := hm x hx
      rw [hxe] at hx'
      exact hfresh hx'
    · intro t ht
      rcases List.mem_cons.mp ht with rfl | hmem
      · exact List.mem_cons_self _ _
      · exact List.mem_cons_of_mem _ (hm t hmem)
    · exact List.nodup_cons.mpr ⟨hfresh, hnd⟩
    · intro v hv'
      rcases List.mem_cons.mp hv' with rfl | hmem
      · exact ⟨s.counter, Nat.lt_succ_self _, rfl⟩
      · obtain ⟨i, hi, he⟩ := hidx v hmem
        exact ⟨i, Nat.lt_succ_of_lt hi, he⟩

/-- The invariant only inspects the token table and the mint history. -/
theorem Inv_congr {s s' : St} (ht : s'.tokens = s.tokens)
    (hm : s'.minted = s.minted) (hc : s'.counter = s.counter)
    (h : Inv s) : Inv s' := by
  unfold Inv
  rw [ht, hm, hc]
  exact h

/-- The token value returned by `Login.login` is the one of the token
delivered by `get_or_create`. -/
theorem login_fst (cfg : Config) (uid : UserId) (s : St) :
    (Login.login cfg uid s).1 = (get_or_create uid s).1.value := by
  unfold Login.login
  split <;> rfl

/-- `Login.login` leaves the token table, mint history and counter exactly
as `get_or_create` produced them: the session flag only gates the session
side effect. -/
theorem login_store (cfg : Config) (uid : UserId) (s : St) :
    (Login.login cfg uid s).2.tokens = (get_or_create uid s).2.2.tokens ∧
    (Login.login cfg uid s).2.minted = (get_or_create uid s).2.2.minted ∧
    (Login.login cfg uid s).2.counter = (get_or_create uid s).2.2.counter := by
  unfold Login.login
  split <;> exact ⟨rfl, rfl, rfl⟩

/-- The session side channel after `Login.login`: the establish call is
logged exactly when `REST_SESSION_LOGIN` (default true) is set. -/
theorem login_log (cfg : Config) (uid : UserId) (s : St) :
    (Login.login cfg uid s).2.log =
      (if cfg.restSessionLogin.getD true then Event.establish uid :: s.log
       else s.log) := by
  unfold Login.login
  have hlog := (get_or_create_log uid s).1
  split <;> simp_all

/-- `get_or_create` either leaves the mint history alone or prepends the one
fresh value it handed out. -/
theorem get_or_create_minted (u : UserId) (s : St) :
    (get_or_create u s).2.2.minted = s.minted ∨
    (get_or_create u s).2.2.minted = freshValue s.counter :: s.minted := by
  unfold get_or_create
  cases s.tokens.find? (fun t => t.owner == u) with
  | some t => exact Or.inl rfl
  | none => exact Or.inr rfl

/-- A failed login leaves the state untouched; a successful one transforms
it by `Login.login`. -/
theorem login_post_cases (cfg : Config) (verify : String → String → Option UserId)
    (isActive : UserId → Bool) (inp : LoginInput) (s : St) :
    (∃ errs, validateLogin verify isActive inp = .error errs ∧
      Login.post cfg verify isActive inp s = (.badRequest errs, s)) ∨
    (∃ uid, validateLogin verify isActive inp = .ok uid ∧
      Login.post cfg verify isActive inp s =
        (.ok (Login.login cfg uid s).1, (Login.login cfg uid s).2)) := by
  unfold Login.post
  cases hv : validateLogin verify isActive inp with
  | error errs => exact Or.inl ⟨errs, rfl, rfl⟩
  | ok uid => exact Or.inr ⟨uid, rfl, rfl⟩

theorem Inv_login_post {s : St} (h : Inv s) (cfg : Config)
    (verify : String → String → Option UserId) (isActive : UserId → Bool)
    (inp : LoginInput) : Inv (Login.post cfg verify isActive inp s).2 := by
  rcases login_post_cases cfg verify isActive inp s with ⟨errs, _, he⟩ | ⟨uid, _, he⟩
  · rw [he]
    exact h
  · rw [he]
    obtain ⟨ht, hm, hc⟩ := login_store cfg uid s
    exact Inv_congr ht hm hc (Inv_get_or_create h uid)

/-- Logout either leaves the token table alone (missing token, or a swallowed
store failure) or removes exactly the tokens of the requesting user. -/
theorem logout_tokens (sf : Bool) (u : UserId) (s : St) :
    (Logout.post sf u s).2.tokens = s.tokens ∨
    (Logout.post sf u s).2.tokens = s.tokens.filter (fun t => !(t.owner == u)) := by
  unfold Logout.post deleteAuthToken
  cases sf with
  | true => exact Or.inl rfl
  | false =>
    by_cases hany : s.tokens.any (fun t => t.owner == u)
    · right
      simp [hany]
    · left
      simp [hany]

/-- Logout never touches the mint history or the counter. -/
theorem logout_store (sf : Bool) (u : UserId) (s : St) :
    (Logout.post sf u s).2.minted = s.minted ∧
    (Logout.post sf u s).2.counter = s.counter := by
  unfold Logout.post deleteAuthToken
  cases sf with
  | true => exact ⟨rfl, rfl⟩
  | false =>
    by_cases hany : s.tokens.any (fun t => t.owner == u)
    · simp [hany]
    · simp [hany]

theorem Inv_logout_post {s : St} (h : Inv s) (sf : Bool) (u : UserId) :
    Inv (Logout.post sf u s).2 := by
  obtain ⟨ho, hv, hm, hnd, hidx⟩ := h
  obtain ⟨hmint, hcnt⟩ := logout_store sf u s
  rcases logout_tokens sf u s with he | he
  · exact Inv_congr he hmint hcnt ⟨ho, hv, hm, hnd, hidx⟩
  · rw [Inv, he, hmint, hcnt]
    have hsub := List.filter_sublist (p := fun t => !(t.owner == u)) s.tokens
    refine ⟨List.Nodup.sublist (List.Sublist.map _ hsub) ho,
            List.Nodup.sublist (List.Sublist.map _ hsub) hv, ?_, hnd, hidx⟩
    intro t ht
    exact hm t (List.mem_filter.mp ht).1

/-- Password reset never touches the token store. -/
theorem reset_store (emailOk accountExists : String → Bool) (inp : ResetInput)
    (s : St) :
    (PasswordReset.post emailOk accountExists inp s).2.tokens = s.tokens ∧
    (PasswordReset.post emailOk accountExists inp s).2.minted = s.minted ∧
    (PasswordReset.post emailOk accountExists inp s).2.counter = s.counter := by
  unfold PasswordReset.post
  cases hv : validateReset emailOk inp with
  | error errs => exact ⟨rfl, rfl, rfl⟩
  | ok e =>
    by_cases hacc : accountExists e
    · simp [hacc]
    · simp [hacc]

theorem Inv_reset_post {s : St} (h : Inv s) (emailOk accountExists : String → Bool)
    (inp : ResetInput) : Inv (PasswordReset.post emailOk accountExists inp s).2 := by
  obtain ⟨ht, hm, hc⟩ := reset_store emailOk accountExists inp s
  exact Inv_congr ht hm hc h

/-- Every view invocation preserves the store invariant. -/
theorem Inv_step {s s' : St} (h : Inv s) (hs : Step s s') : Inv s' := by
  cases hs with
  | login cfg verify isActive inp => exact Inv_login_post h cfg verify isActive inp
  | logout sf u => exact Inv_logout_post h sf u
  | reset emailOk accountExists inp => exact Inv_reset_post h emailOk accountExists inp

/-- Every reachable state satisfies the store invariant. -/
theorem Inv_reachable {s : St} (h : Reachable s) : Inv s := by
  induction h with
  | init => exact Inv_init
  | step _ hs ih => exact Inv_step ih hs

/-- The mint history only ever grows: no view invocation erases the record
of a value that was handed out, deleted tokens included. -/
theorem minted_mono_step {s s' : St} (hs : Step s s') {w : String}
    (hw : w ∈ s.minted) : w ∈ s'.minted := by
  cases hs with
  | login cfg verify isActive inp =>
    rcases login_post_cases cfg verify isActive inp s with ⟨errs, _, he⟩ | ⟨uid, _, he⟩
    · rw [he]
      exact hw
    · rw [he]
      rw [(login_store cfg uid s).2.1]
      rcases get_or_create_minted uid s with hm | hm
      · rw [hm]
        exact hw
      · rw [hm]
        exact List.mem_cons_of_mem _ hw
  | logout sf u =>
    rw [(logout_store sf u s).1]
    exact hw
  | reset emailOk accountExists inp =>
    rw [(reset_store emailOk accountExists inp s).2.1]
    exact hw

/-! ### Resolution: lookup by token value -/

/-- `resolve` only inspects the token table, through one value lookup. -/
theorem resolve_congr_find {a : UserId → Bool} {v : String} {s s' : St}
    (h : s'.tokens.find? (fun x => x.value == v) =
         s.tokens.find? (fun x => x.value == v)) :
    resolve a v s' = resolve a v s := by
  unfold resolve
  rw [h]

theorem resolve_ok_elim {a : UserId → Bool} {v : String} {s : St} {uid : UserId}
    (h : resolve a v s = .ok uid) :
    ∃ t, s.tokens.find? (fun x => x.value == v) = some t ∧
         t.owner = uid ∧ t.value = v ∧ a uid = true := by
  unfold resolve at h
  cases hf : s.tokens.find? (fun x => x.value == v) with
  | none =>
    rw [hf] at h
    exact absurd h (by simp)
  | some t =>
    rw [hf] at h
    have h' : (if a t.owner = true then (Except.ok t.owner : Except AuthError UserId)
               else Except.error AuthError.invalidToken) = Except.ok uid := h
    have hval : t.value = v := by
      have := List.find?_some hf
      simpa using this
    cases ha : a t.owner with
    | false =>
      rw [ha] at h'
      simp at h'
    | true =>
      rw [ha] at h'
      simp at h'
      rw [h'] at ha
      exact ⟨t, rfl, h', hval, ha⟩

theorem resolve_ok_intro {a : UserId → Bool} {v : String} {s : St}
    {t : SessionToken} (hf : s.tokens.find? (fun x => x.value == v) = some t)
    (ha : a t.owner = true) : resolve a v s = .ok t.owner := by
  unfold resolve
  rw [hf]
  show (if a t.owner = true then (Except.ok t.owner : Except AuthError UserId)
        else Except.error AuthError.invalidToken) = Except.ok t.owner
  rw [ha]
  rfl

theorem resolve_err_of_none {a : UserId → Bool} {v : String} {s : St}
    (hf : s.tokens.find? (fun x => x.value == v) = none) :
    resolve a v s = .error .invalidToken := by
  unfold resolve
  rw [hf]

theorem resolve_err_of_inactive {a : UserId → Bool} {v : String} {s : St}
    {t : SessionToken} (hf : s.tokens.find? (fun x => x.value == v) = some t)
    (ha : a t.owner = false) : resolve a v s = .error .invalidToken := by
  unfold resolve
  rw [hf]
  show (if a t.owner = true then (Except.ok t.owner : Except AuthError UserId)
        else Except.error AuthError.invalidToken) = Except.error AuthError.invalidToken
  rw [ha]
  rfl

theorem resolve_err_elim {a : UserId → Bool} {v : String} {s : St}
    (h : resolve a v s = .error .invalidToken) :
    s.tokens.find? (fun x => x.value == v) = none ∨
    ∃ t, s.tokens.find? (fun x => x.value == v) = some t ∧ a t.owner = false := by
  cases hf : s.tokens.find? (fun x => x.value == v) with
  | none => exact Or.inl rfl
  | some t =>
    cases ha : a t.owner with
    | false => exact Or.inr ⟨t, rfl, ha⟩
    | true =>
      rw [resolve_ok_intro hf ha] at h
      exact absurd h (by simp)

/-- The value of a token that resolves is recorded in the mint history. -/
theorem resolve_ok_minted {a : UserId → Bool} {v : String} {s : St}
    {uid : UserId} (hInv : Inv s) (h : resolve a v s = .ok uid) :
    v ∈ s.minted := by
  obtain ⟨t, hf, _, hval, _⟩ := resolve_ok_elim h
  exact hval ▸ hInv.2.2.1 t (List.mem_of_find?_eq_some hf)

/-- A freshly logged-in user's token resolves back to that user. -/
theorem resolve_after_login {cfg : Config} {uid : UserId} {s : St}
    {a : UserId → Bool} (hInv : Inv s) (ha : a uid = true) :
    resolve a (Login.login cfg uid s).1 (Login.login cfg uid s).2 = .ok uid := by
  unfold resolve
  rw [(login_store cfg uid s).1, login_fst]
  unfold get_or_create
  cases hf : s.tokens.find? (fun t => t.owner == uid) with
  | some t =>
    have howner : t.owner = uid := by
      have := List.find?_some hf
      simpa using this
    rw [find?_value_of_mem hInv.2.1 (List.mem_of_find?_eq_some hf)]
    show (if a t.owner = true then (Except.ok t.owner : Except AuthError UserId)
          else Except.error AuthError.invalidToken) = Except.ok uid
    rw [howner, ha]
    rfl
  | none =>
    rw [List.find?_cons_of_pos _ (by simp)]
    show (if a uid = true then (Except.ok uid : Except AuthError UserId)
          else Except.error AuthError.invalidToken) = Except.ok uid
    rw [ha]
    rfl

/-- `get_or_create` either leaves the token table alone or prepends the one
token it minted. -/
theorem get_or_create_tokens (u : UserId) (s : St) :
    (get_or_create u s).2.2.tokens = s.tokens ∨
    (get_or_create u s).2.2.tokens =
      ⟨freshValue s.counter, u, s.counter⟩ :: s.tokens := by
  unfold get_or_create
  cases s.tokens.find? (fun t => t.owner == u) with
  | some t => exact Or.inl rfl
  | none => exact Or.inr rfl

/-- A login either leaves the token table alone or prepends one token whose
value is fresh at the current counter. -/
theorem login_post_tokens (cfg : Config) (verify : String → String → Option UserId)
    (isActive : UserId → Bool) (inp : LoginInput) (s : St) :
    (Login.post cfg verify isActive inp s).2.tokens = s.tokens ∨
    ∃ uid, (Login.post cfg verify isActive inp s).2.tokens =
      ⟨freshValue s.counter, uid, s.counter⟩ :: s.tokens := by
  rcases login_post_cases cfg verify isActive inp s with ⟨errs, _, he⟩ | ⟨uid, _, he⟩
  · rw [he]
    exact Or.inl rfl
  · rw [he]
    rw [(login_store cfg uid s).1]
    rcases get_or_create_tokens uid s with ht | ht
    · exact Or.inl ht
    · exact Or.inr ⟨uid, ht⟩

/-- A login cannot disturb the resolution of a previously minted value: the
token it may insert carries a value that was never handed out before. -/
theorem resolve_login_step {s : St} (hInv : Inv s) {a : UserId → Bool}
    {v : String} (hv : v ∈ s.minted) (cfg : Config)
    (verify : String → String → Option UserId) (isActive : UserId → Bool)
    (inp : LoginInput) :
    resolve a v (Login.post cfg verify isActive inp s).2 = resolve a v s := by
  apply resolve_congr_find
  rcases login_post_tokens cfg verify isActive inp s with ht | ⟨uid, ht⟩
  · rw [ht]
  · rw [ht, List.find?_cons_of_neg]
    intro he
    have he' : freshValue s.counter = v := by simpa using he
    rw [← he'] at hv
    exact freshValue_counter_not_minted hInv hv

/-- Password reset never disturbs resolution. -/
theorem resolve_reset_step (emailOk accountExists : String → Bool)
    (inp : ResetInput) (s : St) (a : UserId → Bool) (v : String) :
    resolve a v (PasswordReset.post emailOk accountExists inp s).2 = resolve a v s := by
  apply resolve_congr_find
  rw [(reset_store emailOk accountExists inp s).1]

/-- When the requesting user does own a token, logout (with the store up)
removes exactly that user's tokens. -/
theorem logout_tokens_deletes {u : UserId} {s : St}
    (hany : s.tokens.any (fun t => t.owner == u) = true) :
    (Logout.post false u s).2.tokens = s.tokens.filter (fun t => !(t.owner == u)) := by
  unfold Logout.post deleteAuthToken
  simp [hany]

/-- A logout of a different identity does not disturb a resolving token. -/
theorem resolve_ok_logout {s : St} (hInv : Inv s) {a : UserId → Bool}
    {v : String} {uid : UserId} (h : resolve a v s = .ok uid) (sf : Bool)
    {u : UserId} (hne : u ≠ uid) :
    resolve a v (Logout.post sf u s).2 = .ok uid := by
  obtain ⟨t, hf, howner, hval, ha⟩ := resolve_ok_elim h
  rcases logout_tokens sf u s with ht | ht
  · have heq : resolve a v (Logout.post sf u s).2 = resolve a v s :=
      resolve_congr_find (by rw [ht])
    rw [heq]
    exact h
  · have hmem : t ∈ s.tokens.filter (fun x => !(x.owner == u)) := by
      refine List.mem_filter.mpr ⟨List.mem_of_find?_eq_some hf, ?_⟩
      have hto : t.owner ≠ u := by
        rw [howner]
        exact fun he => hne he.symm
      simp [hto]
    have hnd : ((s.tokens.filter (fun x => !(x.owner == u))).map SessionToken.value).Nodup :=
      List.Nodup.sublist (List.Sublist.map _ (List.filter_sublist _)) hInv.2.1
    have hfind := find?_value_of_mem hnd hmem
    rw [hval] at hfind
    have hfind' : (Logout.post sf u s).2.tokens.find? (fun x => x.value == v) = some t := by
      rw [ht]
      exact hfind
    rw [← howner]
    exact resolve_ok_intro hfind' (by rw [howner]; exact ha)

/-- An invalid value stays invalid across any logout. -/
theorem resolve_err_logout {s : St} (hInv : Inv s) {a : UserId → Bool}
    {v : String} (h : resolve a v s = .error .invalidToken) (sf : Bool)
    (u : UserId) :
    resolve a v (Logout.post sf u s).2 = .error .invalidToken := by
  rcases logout_tokens sf u s with ht | ht
  · have heq : resolve a v (Logout.post sf u s).2 = resolve a v s :=
      resolve_congr_find (by rw [ht])
    rw [heq]
    exact h
  · rcases resolve_err_elim h with hnone | ⟨t, hf, ha⟩
    · apply resolve_err_of_none
      rw [ht, List.find?_eq_none]
      rw [List.find?_eq_none] at hnone
      intro x hx
      exact hnone x (List.mem_filter.mp hx).1
    · have hval : t.value = v := by simpa using List.find?_some hf
      by_cases hu : t.owner = u
      · apply resolve_err_of_none
        rw [ht, List.find?_eq_none]
        intro x hx hpx
        have hxmem := (List.mem_filter.mp hx).1
        have hxfil := (List.mem_filter.mp hx).2
        have hxval : x.value = v := by simpa using hpx
        have hxt : x = t :=
          eq_of_value_eq hInv.2.1 hxmem (List.mem_of_find?_eq_some hf)
            (by rw [hxval, hval])
        rw [hxt] at hxfil
        simp [hu] at hxfil
      · have hmem : t ∈ s.tokens.filter (fun x => !(x.owner == u)) :=
          List.mem_filter.mpr ⟨List.mem_of_find?_eq_some hf, by simp [hu]⟩
        have hnd : ((s.tokens.filter (fun x => !(x.owner == u))).map SessionToken.value).Nodup :=
          List.Nodup.sublist (List.Sublist.map _ (List.filter_sublist _)) hInv.2.1
        have hfind := find?_value_of_mem hnd hmem
        rw [hval] at hfind
        refine resolve_err_of_inactive (t := t) ?_ ha
        rw [ht]
        exact hfind

/-- Revoking the owner of a resolving token (with the store up) kills its
resolution. -/
theorem resolve_revoke {s : St} (hInv : Inv s) {a : UserId → Bool}
    {v : String} {uid : UserId} (h : resolve a v s = .ok uid) :
    resolve a v (Logout.post false uid s).2 = .error .invalidToken := by
  obtain ⟨t, hf, howner, hval, _⟩ := resolve_ok_elim h
  have hmem := List.mem_of_find?_eq_some hf
  have hany : s.tokens.any (fun x => x.owner == uid) = true :=
    List.any_eq_true.mpr ⟨t, hmem, by simp [howner]⟩
  have ht := logout_tokens_deletes (u := uid) (s := s) hany
  apply resolve_err_of_none
  rw [ht, List.find?_eq_none]
  intro x hx hpx
  have hxmem := (List.mem_filter.mp hx).1
  have hxfil := (List.mem_filter.mp hx).2
  have hxval : x.value = v := by simpa using hpx
  have hxt : x = t := eq_of_value_eq hInv.2.1 hxmem hmem (by rw [hxval, hval])
  rw [hxt, howner] at hxfil
  simp at hxfil

/-- Along any run that never logs `uid` out, a token of `uid` keeps
resolving to `uid`. -/
theorem stepsAvoiding_ok {uid : UserId} {a : UserId → Bool} {v : String}
    {s s' : St} (hs : StepsAvoiding uid s s') (hInv : Inv s)
    (h : resolve a v s = .ok uid) :
    Inv s' ∧ resolve a v s' = .ok uid := by
  induction hs with
  | refl => exact ⟨hInv, h⟩
  | login cfg verify isActive inp _ ih =>
    refine ⟨Inv_login_post ih.1 cfg verify isActive inp, ?_⟩
    rw [resolve_login_step ih.1 (resolve_ok_minted ih.1 ih.2) cfg verify isActive inp]
    exact ih.2
  | logoutOther sf hne _ ih =>
    exact ⟨Inv_logout_post ih.1 sf _, resolve_ok_logout ih.1 ih.2 sf hne⟩
  | reset emailOk accountExists inp _ ih =>
    refine ⟨Inv_reset_post ih.1 emailOk accountExists inp, ?_⟩
    rw [resolve_reset_step emailOk accountExists inp _ a v]
    exact ih.2

/-- Once a minted value stops resolving, no later operation revives it. -/
theorem steps_err {a : UserId → Bool} {v : String} {s s' : St}
    (hs : Steps s s') (hInv : Inv s) (hv : v ∈ s.minted)
    (h : resolve a v s = .error .invalidToken) :
    Inv s' ∧ v ∈ s'.minted ∧ resolve a v s' = .error .invalidToken := by
  induction hs with
  | refl => exact ⟨hInv, hv, h⟩
  | tail _ hstep ih =>
    obtain ⟨ih1, ih2, ih3⟩ := ih
    refine ⟨Inv_step ih1 hstep, minted_mono_step hstep ih2, ?_⟩
    cases hstep with
    | login cfg verify isActive inp =>
      rw [resolve_login_step ih1 ih2 cfg verify isActive inp]
      exact ih3
    | logout sf u => exact resolve_err_logout ih1 ih3 sf u
    | reset emailOk accountExists inp =>
      rw [resolve_reset_step emailOk accountExists inp _ a v]
      exact ih3

/-- Logging in when the user already owns a token returns that token's value
and mints nothing (the counter does not move). -/
theorem login_found_again (cfg : Config) {uid : UserId} {s : St}
    {t : SessionToken}
    (hf : s.tokens.find? (fun x => x.owner == uid) = some t) :
    (Login.login cfg uid s).1 = t.value ∧
    (Login.login cfg uid s).2.counter = s.counter := by
  constructor
  · rw [login_fst]
    unfold get_or_create
    rw [hf]
  · rw [(login_store cfg uid s).2.2]
    unfold get_or_create
    rw [hf]

/-- After `Login.login`, the user owns a token in the table whose value is
the returned one. -/
theorem login_makes_token (cfg : Config) (uid : UserId) (s : St) :
    ∃ t, (Login.login cfg uid s).2.tokens.find? (fun x => x.owner == uid) = some t ∧
         t.value = (Login.login cfg uid s).1 := by
  rw [(login_store cfg uid s).1, login_fst]
  unfold get_or_create
  cases hf : s.tokens.find? (fun t => t.owner == uid) with
  | some t => exact ⟨t, hf, rfl⟩
  | none =>
    exact ⟨⟨freshValue s.counter, uid, s.counter⟩,
      List.find?_cons_of_pos _ (by simp), rfl⟩

/-! ### Concrete inputs used by the witnesses -/

/-- A concrete credential verifier: the account alice with password
"correct". -/
def verifyW : String → String → Option UserId :=
  fun u p => if u == "alice" && p == "correct" then some "alice" else none

/-- Every identity active. -/
def activeW : UserId → Bool := fun _ => true

/-- `REST_SESSION_LOGIN` left unset (so it defaults to true). -/
def cfgW : Config := ⟨none⟩

/-- A valid login request body for alice. -/
def inpW : LoginInput := ⟨some "alice", some "correct"⟩

/-- A login request body with the wrong password. -/
def inpBadW : LoginInput := ⟨some "alice", some "wrong"⟩

/-! ### The claims -/

/-- C1: for every identity with valid credentials, calling authenticate
twice in a row yields the same token value both times; the second call finds
the token via get-or-create and does not mint a new one (the mint counter
does not move). -/
theorem claim_C1 (cfg : Config) (verify : String → String → Option UserId)
    (isActive : UserId → Bool) (inp : LoginInput) (s s' : St) (v : String)
    (h : Login.post cfg verify isActive inp s = (.ok v, s')) :
    (Login.post cfg verify isActive inp s').1 = LoginResponse.ok v ∧
    (Login.post cfg verify isActive inp s').2.counter = s'.counter := by
  rcases login_post_cases cfg verify isActive inp s with ⟨errs, hval, he⟩ | ⟨uid, hval, he⟩
  · rw [he] at h
    exact absurd h (by simp)
  · rw [he] at h
    have h1 : LoginResponse.ok (Login.login cfg uid s).1 = LoginResponse.ok v :=
      congrArg Prod.fst h
    have h2 : (Login.login cfg uid s).2 = s' := congrArg Prod.snd h
    have hv : (Login.login cfg uid s).1 = v := by simpa using h1
    obtain ⟨t, hf, htv⟩ := login_makes_token cfg uid s
    rw [h2] at hf
    rcases login_post_cases cfg verify isActive inp s' with ⟨errs, hval', _⟩ | ⟨uid', hval', he'⟩
    · rw [hval] at hval'
      exact absurd hval' (by simp)
    · have huid : uid' = uid := by
        rw [hval] at hval'
        have h3 := hval'
        simp at h3
        exact h3.symm
      rw [he', huid]
      obtain ⟨hfst, hcnt⟩ := login_found_again cfg hf
      constructor
      · show LoginResponse.ok (Login.login cfg uid s').1 = LoginResponse.ok v
        rw [hfst, htv, hv]
      · show (Login.login cfg uid s').2.counter = s'.counter
        exact hcnt

/-- Witness for C1: alice authenticates from the empty store, then again
from the resulting state; the second call returns the same token value and
mints nothing. -/
theorem claim_C1_witness :
    (Login.post cfgW verifyW activeW inpW
        (Login.post cfgW verifyW activeW inpW init).2).1
      = LoginResponse.ok (freshValue 0) ∧
    (Login.post cfgW verifyW activeW inpW
        (Login.post cfgW verifyW activeW inpW init).2).2.counter
      = (Login.post cfgW verifyW activeW inpW init).2.counter :=
  claim_C1 cfgW verifyW activeW inpW init
    (Login.post cfgW verifyW activeW inpW init).2 (freshValue 0) rfl

/-- C2: after every successful authenticate call for identity `uid` from a
reachable state, exactly one token for `uid` is in the store; and the call
leaves at most one live token for every identity. -/
theorem claim_C2 (cfg : Config) (verify : String → String → Option UserId)
    (isActive : UserId → Bool) (inp : LoginInput) (s : St) (uid : UserId)
    (hreach : Reachable s) (hok : validateLogin verify isActive inp = .ok uid) :
    ((Login.post cfg verify isActive inp s).2.tokens.filter
        (fun t => t.owner == uid)).length = 1 ∧
    ∀ u : UserId, ((Login.post cfg verify isActive inp s).2.tokens.filter
        (fun t => t.owner == u)).length ≤ 1 := by
  have hreach' : Reachable (Login.post cfg verify isActive inp s).2 :=
    Reachable.step hreach (Step.login cfg verify isActive inp)
  have hInv' := Inv_reachable hreach'
  have hle := fun u => filter_owner_length_le_one hInv'.1 u
  refine ⟨?_, hle⟩
  rcases login_post_cases cfg verify isActive inp s with ⟨errs, hval, _⟩ | ⟨uid', hval, he⟩
  · rw [hok] at hval
    exact absurd hval (by simp)
  · have huid : uid' = uid := by
      rw [hok] at hval
      have h3 := hval
      simp at h3
      exact h3.symm
    obtain ⟨t, hf, _⟩ := login_makes_token cfg uid' s
    have hmem : t ∈ (Login.login cfg uid' s).2.tokens := List.mem_of_find?_eq_some hf
    have hpt : (t.owner == uid) = true := by
      have h4 := List.find?_some hf
      rw [huid] at h4
      simpa using h4
    have hmem' : t ∈ (Login.post cfg verify isActive inp s).2.tokens.filter
        (fun x => x.owner == uid) := by
      refine List.mem_filter.mpr ⟨?_, hpt⟩
      rw [he, huid]
      rw [huid] at hmem
      exact hmem
    have hpos : 0 < ((Login.post cfg verify isActive inp s).2.tokens.filter
        (fun x => x.owner == uid)).length :=
      List.length_pos.mpr (List.ne_nil_of_mem hmem')
    exact Nat.le_antisymm (hle uid) hpos

/-- Witness for C2: after alice authenticates from the empty store, her
token count is exactly one. -/
theorem claim_C2_witness :
    ((Login.post cfgW verifyW activeW inpW init).2.tokens.filter
        (fun t => t.owner == "alice")).length = 1 :=
  (claim_C2 cfgW verifyW activeW inpW init "alice" Reachable.init rfl).1

/-- C3 (amended): a token issued to an active identity `uid` resolves to
`uid` at issuance and at every later point reached without logging `uid`
out; and after any logout of `uid` whose underlying deletion succeeds (the
store is up), the value resolves to `InvalidToken` at every later point.
(The unamended claim — invalid after *every* revoke — fails when the
deletion raises and `Logout.post` swallows the failure; see the
counterexample.) -/
theorem claim_C3 (cfg : Config) (verify : String → String → Option UserId)
    (isActive : UserId → Bool) (inp : LoginInput) (uid : UserId) (v : String)
    (s s1 : St) (hreach : Reachable s)
    (hval : validateLogin verify isActive inp = .ok uid)
    (hact : isActive uid = true)
    (hpost : Login.post cfg verify isActive inp s = (.ok v, s1)) :
    resolve isActive v s1 = .ok uid ∧
    (∀ s', StepsAvoiding uid s1 s' → resolve isActive v s' = .ok uid) ∧
    (∀ s' s'', StepsAvoiding uid s1 s' → Steps (Logout.post false uid s').2 s'' →
      resolve isActive v s'' = .error AuthError.invalidToken) := by
  rcases login_post_cases cfg verify isActive inp s with ⟨errs, hval', _⟩ | ⟨uid', hval', he⟩
  · rw [hval] at hval'
    exact absurd hval' (by simp)
  · have huid : uid' = uid := by
      rw [hval] at hval'
      have h3 := hval'
      simp at h3
      exact h3.symm
    rw [huid] at he
    rw [he] at hpost
    have h1 : LoginResponse.ok (Login.login cfg uid s).1 = LoginResponse.ok v :=
      congrArg Prod.fst hpost
    have hv : (Login.login cfg uid s).1 = v := by simpa using h1
    have h2 : (Login.login cfg uid s).2 = s1 := congrArg Prod.snd hpost
    have hInv := Inv_reachable hreach
    have hres : resolve isActive v s1 = .ok uid := by
      rw [← hv, ← h2]
      exact resolve_after_login hInv hact
    have hInv1 : Inv s1 := by
      rw [← h2]
      exact Inv_congr (login_store cfg uid s).1 (login_store cfg uid s).2.1
        (login_store cfg uid s).2.2 (Inv_get_or_create hInv uid)
    refine ⟨hres, ?_, ?_⟩
    · intro s' hs'
      exact (stepsAvoiding_ok hs' hInv1 hres).2
    · intro s' s'' hs' hsteps
      obtain ⟨hInv', hok'⟩ := stepsAvoiding_ok hs' hInv1 hres
      have herr := resolve_revoke hInv' hok'
      have hInvL := Inv_logout_post hInv' false uid
      have hvm : v ∈ (Logout.post false uid s').2.minted := by
        rw [(logout_store false uid s').1]
        exact resolve_ok_minted hInv' hok'
      exact (steps_err hsteps hInvL hvm herr).2.2

/-- Counterexample to C3 as stated: alice logs in, then a logout for alice
whose token deletion fails in the store (the bare `except: pass` of
views.py:81-84 swallows the failure and still answers 200) — yet afterwards
her token still resolves to her identity, not to `InvalidToken`. -/
theorem claim_C3_counterexample :
    (Logout.post true "alice" (Login.post cfgW verifyW activeW inpW init).2).1
      = HttpResponse.ok "Successfully logged out." ∧
    resolve activeW (freshValue 0)
      (Logout.post true "alice" (Login.post cfgW verifyW activeW inpW init).2).2
      = Except.ok "alice" ∧
    (Except.ok "alice" : Except AuthError UserId) ≠ Except.error AuthError.invalidToken :=
  ⟨rfl, rfl, fun hcontra => Except.noConfusion hcontra⟩

/-- Witness for C3: alice's freshly issued token resolves to alice. -/
theorem claim_C3_witness :
    resolve activeW (freshValue 0) (Login.post cfgW verifyW activeW inpW init).2
      = Except.ok "alice" :=
  (claim_C3 cfgW verifyW activeW inpW "alice" (freshValue 0) init
    (Login.post cfgW verifyW activeW inpW init).2 Reachable.init rfl rfl rfl).1

/-- C4: logout never reports failure: for every identity — token or no
token — and even when the underlying deletion fails (`storeFails`), the
response is the 200 success body, and calling it twice in a row succeeds
both times. -/
theorem claim_C4 (sf sf' : Bool) (u : UserId) (s : St) :
    (Logout.post sf u s).1 = HttpResponse.ok "Successfully logged out." ∧
    (Logout.post sf' u (Logout.post sf u s).2).1 =
      HttpResponse.ok "Successfully logged out." :=
  ⟨rfl, rfl⟩

/-- C5: whenever credential validation fails, login returns the 400 error
response and returns the state exactly as it was: no token minted, store
unchanged. -/
theorem claim_C5 (cfg : Config) (verify : String → String → Option UserId)
    (isActive : UserId → Bool) (inp : LoginInput) (s : St)
    (errs : List FieldError)
    (h : validateLogin verify isActive inp = .error errs) :
    Login.post cfg verify isActive inp s = (.badRequest errs, s) := by
  unfold Login.post
  rw [h]

/-- Witness for C5: alice with the wrong password gets the conflated
credential error and the empty store stays empty. -/
theorem claim_C5_witness :
    Login.post cfgW verifyW activeW inpBadW init =
      (.badRequest invalidCredsErrors, init) :=
  claim_C5 cfgW verifyW activeW inpBadW init invalidCredsErrors rfl

/-- C6: on every successful login, the session-established side effect is
triggered if and only if `REST_SESSION_LOGIN` (default true when unset) is
set, and the token get-or-create happens regardless of the flag. -/
theorem claim_C6 (cfg : Config) (verify : String → String → Option UserId)
    (isActive : UserId → Bool) (inp : LoginInput) (s : St) (uid : UserId)
    (h : validateLogin verify isActive inp = .ok uid) :
    ((Login.post cfg verify isActive inp s).2.log =
      (if cfg.restSessionLogin.getD true then Event.establish uid :: s.log
       else s.log)) ∧
    (cfg.restSessionLogin = none →
      (Login.post cfg verify isActive inp s).2.log = Event.establish uid :: s.log) ∧
    (∃ t ∈ (Login.post cfg verify isActive inp s).2.tokens, t.owner = uid) := by
  rcases login_post_cases cfg verify isActive inp s with ⟨errs, hval, _⟩ | ⟨uid', hval, he⟩
  · rw [h] at hval
    exact absurd hval (by simp)
  · have huid : uid' = uid := by
      rw [h] at hval
      have h3 := hval
      simp at h3
      exact h3.symm
    rw [huid] at he
    refine ⟨?_, ?_, ?_⟩
    · rw [he]
      exact login_log cfg uid s
    · intro hnone
      rw [he, login_log, hnone]
      rfl
    · obtain ⟨t, hf, _⟩ := login_makes_token cfg uid s
      have hmem := List.mem_of_find?_eq_some hf
      have howner : t.owner = uid := by simpa using List.find?_some hf
      refine ⟨t, ?_, howner⟩
      rw [he]
      exact hmem

/-- Witness for C6: with the setting unset, alice's login registers the
session side effect and creates her token. -/
theorem claim_C6_witness :
    (Login.post cfgW verifyW activeW inpW init).2.log =
      Event.establish "alice" :: init.log :=
  (claim_C6 cfgW verifyW activeW inpW init "alice" rfl).2.1 rfl

/-- C7: every POST /login outcome is either 200 with the token (exactly when
validation succeeds) or 400 carrying the collected per-field errors (exactly
when validation fails) — no other outcome exists; and validation collects
the field errors wholesale (both required-field errors when both fields are
missing, never short-circuiting on the first). -/
theorem claim_C7 (cfg : Config) (verify : String → String → Option UserId)
    (isActive : UserId → Bool) (inp : LoginInput) (s : St) :
    (∀ uid, validateLogin verify isActive inp = .ok uid →
      (Login.post cfg verify isActive inp s).1 = .ok (Login.login cfg uid s).1) ∧
    (∀ errs, validateLogin verify isActive inp = .error errs →
      (Login.post cfg verify isActive inp s).1 = .badRequest errs) ∧
    ((∃ v, (Login.post cfg verify isActive inp s).1 = .ok v) ∨
     (∃ errs, (Login.post cfg verify isActive inp s).1 = .badRequest errs)) ∧
    validateLogin verify isActive ⟨none, none⟩ =
      .error [requiredError "username", requiredError "password"] := by
  refine ⟨?_, ?_, ?_, rfl⟩
  · intro uid ho
    unfold Login.post
    rw [ho]
  · intro errs herr
    unfold Login.post
    rw [herr]
  · rcases login_post_cases cfg verify isActive inp s with ⟨errs, _, he⟩ | ⟨uid, _, he⟩
    · right
      exact ⟨errs, by rw [he]⟩
    · left
      exact ⟨(Login.login cfg uid s).1, by rw [he]⟩

/-- Witness for C7: alice's valid login yields the 200 response with her
token. -/
theorem claim_C7_witness :
    (Login.post cfgW verifyW activeW inpW init).1 =
      .ok (Login.login cfgW "alice" init).1 :=
  (claim_C7 cfgW verifyW activeW inpW init).1 "alice" rfl

/-- C8: at every reachable state, token values are globally unique: live
tokens carry pairwise-distinct values (so two identities never share one),
every live value is on the mint record, the mint record never repeats a
value (a value is minted at most once, ever — so a deleted token's value is
never reused), and no step erases the record. -/
theorem claim_C8 (s : St) (h : Reachable s) :
    (s.tokens.map SessionToken.value).Nodup ∧
    s.minted.Nodup ∧
    (∀ t ∈ s.tokens, t.value ∈ s.minted) ∧
    (∀ s', Step s s' → ∀ w ∈ s.minted, w ∈ s'.minted) := by
  have hInv := Inv_reachable h
  exact ⟨hInv.2.1, hInv.2.2.2.1, hInv.2.2.1,
    fun s' hs w hw => minted_mono_step hs hw⟩

/-- Witness for C8: after alice's login from the empty store, the live
token values are pairwise distinct. -/
theorem claim_C8_witness :
    ((Login.post cfgW verifyW activeW inpW init).2.tokens.map
        SessionToken.value).Nodup :=
  (claim_C8 (Login.post cfgW verifyW activeW inpW init).2
    (Reachable.step Reachable.init (Step.login cfgW verifyW activeW inpW))).1

/-- C9: on every logout — token deletion failing or not, token present or
not — the cookie-session termination runs unconditionally and the success
response is produced, with the session cleared. -/
theorem claim_C9 (sf : Bool) (u : UserId) (s : St) :
    (Logout.post sf u s).2.log = Event.terminate :: s.log ∧
    (Logout.post sf u s).2.sessionUser = none ∧
    (Logout.post sf u s).1 = HttpResponse.ok "Successfully logged out." := by
  unfold Logout.post deleteAuthToken
  cases sf with
  | true => exact ⟨rfl, rfl, rfl⟩
  | false =>
    by_cases hany : s.tokens.any (fun t => t.owner == u)
    · simp [hany]
    · simp [hany]

/-- Concrete email-format check for the C10 witness. -/
def emailOkW : String → Bool := fun _ => true

/-- Account oracle where the submitted address has an account. -/
def accYesW : String → Bool := fun _ => true

/-- Account oracle where no address has an account. -/
def accNoW : String → Bool := fun _ => false

/-- A valid password-reset request body. -/
def inpRW : ResetInput := ⟨some "alice@example.com"⟩

/-- C10: when a password-reset request validates, the response is the 200
success message, identical whether or not the submitted email has an
account: two runs differing only in the account oracle return the same
response. -/
theorem claim_C10 (emailOk acc1 acc2 : String → Bool) (inp : ResetInput)
    (s : St) (e : String) (h : validateReset emailOk inp = .ok e) :
    (PasswordReset.post emailOk acc1 inp s).1 =
      HttpResponse.ok "Password reset e-mail has been sent." ∧
    (PasswordReset.post emailOk acc1 inp s).1 =
      (PasswordReset.post emailOk acc2 inp s).1 := by
  unfold PasswordReset.post
  rw [h]
  exact ⟨rfl, rfl⟩

/-- Witness for C10: the same valid request gets the same 200 body under an
oracle where the account exists and one where it does not. -/
theorem claim_C10_witness :
    (PasswordReset.post emailOkW accYesW inpRW init).1 =
      HttpResponse.ok "Password reset e-mail has been sent." ∧
    (PasswordReset.post emailOkW accYesW inpRW init).1 =
      (PasswordReset.post emailOkW accNoW inpRW init).1 :=
  claim_C10 emailOkW accYesW accNoW inpRW init "alice@example.com" rfl

end RestAuth
